import Mathlib

/-!
Verification of the etime task-timer application.

The Python sources (models.py, timer_engine.py, storage.py, main.py,
task_dialog.py) are shallowly embedded: timestamps are rationals,
Python dicts become structures with `Option` fields for possibly-missing
keys, side-effecting controller methods become pure state transformers
on an `AppState` record, and fallible operations return `Option`/`Bool`.
-/

namespace Etime

/-- Task lifecycle states (models.TaskState). -/
inductive TaskState
  | backlog
  | ongoing
  | paused
  | completed
  deriving DecidableEq, Repr

/-- A work interval `{"start": ISO, "end": ISO|None}`; `stop = none` means
the interval is still open.  ISO timestamps are modelled as rationals. -/
structure Interval where
  start : ℚ
  stop : Option ℚ
  deriving DecidableEq, Repr

/-- The `Task` dataclass of models.py.  String timestamps are rationals;
the empty-string defaults of `created_at` become `none`. -/
structure Task where
  id : String
  name : String
  estimated_seconds : Int
  state : TaskState
  elapsed_seconds : ℚ
  created_at : Option ℚ
  started_at : Option ℚ
  completed_at : Option ℚ
  ambitious_seconds : Option Int
  linear_issue : Option String
  last_alarm_level : Int
  work_intervals : List Interval
  parent_task_id : Option String
  deriving DecidableEq, Repr

/-- `Task.start_interval`: append a new open interval starting now. -/
def Task.start_interval (now : ℚ) (t : Task) : Task :=
  { t with work_intervals := t.work_intervals ++ [⟨now, none⟩] }

/-- Close the last interval of the list if it is open (helper for
`Task.end_interval`). -/
def closeLast (now : ℚ) : List Interval → List Interval
  | [] => []
  | [iv] => if iv.stop = none then [⟨iv.start, some now⟩] else [iv]
  | iv :: rest => iv :: closeLast now rest

/-- `Task.end_interval`: close the current open work interval, if any. -/
def Task.end_interval (now : ℚ) (t : Task) : Task :=
  { t with work_intervals := closeLast now t.work_intervals }

/-- `Task.compute_elapsed`: sum of interval lengths, an open interval
counting up to `now`; falls back to the stored scalar when there are no
intervals. -/
def Task.compute_elapsed (now : ℚ) (t : Task) : ℚ :=
  if t.work_intervals.isEmpty then t.elapsed_seconds
  else (t.work_intervals.map (fun iv => (iv.stop.getD now) - iv.start)).sum

/-- `TaskState(s)` on a string, as in `Task.from_dict`. -/
def parseState : String → Option TaskState
  | "backlog" => some .backlog
  | "ongoing" => some .ongoing
  | "paused" => some .paused
  | "completed" => some .completed
  | _ => none

/-- `Task.__post_init__`: substitute a fresh uuid for an empty id and the
current time for a missing `created_at`. -/
def Task.post_init (freshId : String) (now : ℚ) (t : Task) : Task :=
  let t1 := if t.id = "" then { t with id := freshId } else t
  if t1.created_at = none then { t1 with created_at := some now } else t1

/-- A JSON dict that may describe a task: outer `Option` is key presence.
Fields that are nullable in the dataclass carry an inner `Option`. -/
structure RawTask where
  id : Option String := none
  name : Option String := none
  estimated_seconds : Option Int := none
  state : Option String := none
  elapsed_seconds : Option ℚ := none
  created_at : Option (Option ℚ) := none
  started_at : Option (Option ℚ) := none
  completed_at : Option (Option ℚ) := none
  ambitious_seconds : Option (Option Int) := none
  linear_issue : Option (Option String) := none
  last_alarm_level : Option Int := none
  work_intervals : Option (List Interval) := none
  parent_task_id : Option (Option String) := none
  deriving DecidableEq, Repr

/-- `Task.from_dict`: requires `state` (KeyError) to name a valid state
(ValueError) and `id`, `name`, `estimated_seconds` to be present
(TypeError from `cls(**d)` otherwise); missing optional fields take the
dataclass defaults. -/
def Task.from_dict (freshId : String) (now : ℚ) (d : RawTask) : Option Task :=
  match d.state with
  | none => none
  | some s =>
    match parseState s with
    | none => none
    | some st =>
      match d.id, d.name, d.estimated_seconds with
      | some i, some nm, some est =>
          some (Task.post_init freshId now
            { id := i
              name := nm
              estimated_seconds := est
              state := st
              elapsed_seconds := d.elapsed_seconds.getD 0
              created_at := d.created_at.getD none
              started_at := d.started_at.getD none
              completed_at := d.completed_at.getD none
              ambitious_seconds := d.ambitious_seconds.getD none
              linear_issue := d.linear_issue.getD none
              last_alarm_level := d.last_alarm_level.getD 0
              work_intervals := d.work_intervals.getD []
              parent_task_id := d.parent_task_id.getD none })
      | _, _, _ => none

/-! ## timer_engine.py -/

/-- `check_alarm`: alarm level for a task, or `none`.  Python's
`int(ratio)` truncates toward zero, which on the guarded branch
`ratio >= 1.0` equals the floor. -/
def check_alarm (t : Task) : Option Int :=
  if t.state ≠ TaskState.ongoing then none
  else if t.estimated_seconds ≤ 0 then none
  else if 1 ≤ t.elapsed_seconds / (t.estimated_seconds : ℚ) then
    let lvl := max 1 ⌊t.elapsed_seconds / (t.estimated_seconds : ℚ)⌋
    if t.last_alarm_level < lvl then some lvl else none
  else none

/-- One body of the `TimerEngine._on_tick` loop for a single task:
increment elapsed by `TIMER_INCREMENT_S = 0.1`, check the alarm, record
the fired level and emit the `(task_id, level)` event. -/
def tick_one (t : Task) : Task × Option (String × Int) :=
  if t.state = TaskState.ongoing then
    match check_alarm { t with elapsed_seconds := t.elapsed_seconds + 1/10 } with
    | some l =>
      ({ t with elapsed_seconds := t.elapsed_seconds + 1/10, last_alarm_level := l },
        some (t.id, l))
    | none => ({ t with elapsed_seconds := t.elapsed_seconds + 1/10 }, none)
  else (t, none)

/-- Iterate `tick_one` for `n` ticks, collecting the fired alarm levels in
order. -/
def run_ticks : Task → ℕ → Task × List Int
  | t, 0 => (t, [])
  | t, n+1 =>
    ((run_ticks (tick_one t).1 n).1,
     ((tick_one t).2.map Prod.snd).toList ++ (run_ticks (tick_one t).1 n).2)

/-! ## storage.py -/

/-- An element of the JSON list in active.json: either a JSON object
(modelled as a `RawTask`) or some other JSON value.  On a non-dict
element `Task.from_dict` raises, and the `print` in the inner `except`
handler then raises `AttributeError` (no `.get` on a non-dict), which
escapes to the outer handler. -/
inductive JsonRec
  | nonDict
  | dict (r : RawTask)
  deriving DecidableEq, Repr

/-- The possible states of the active.json file. -/
inductive ActiveFile
  | absent
  | malformed
  | notList
  | list (recs : List JsonRec)
  deriving DecidableEq, Repr

/-- The record loop of `load_active_tasks`.  `fresh k` is the uuid that
would be generated for the `k`-th record if its id were empty.  Returns
`none` when the loop is aborted by the `AttributeError` raised inside the
inner `except` handler on a non-dict record. -/
def load_records (fresh : ℕ → String) (now : ℚ) : ℕ → List JsonRec → Option (List Task)
  | _, [] => some []
  | _, JsonRec.nonDict :: _ => none
  | k, JsonRec.dict r :: rest =>
    match Task.from_dict (fresh k) now r with
    | some t => (load_records fresh now (k+1) rest).map (t :: ·)
    | none => load_records fresh now (k+1) rest

/-- `load_active_tasks`: empty list when the file is absent, unreadable,
or not a JSON list; otherwise the record loop, with any escaped exception
caught by the outer handler (returning empty). -/
def load_active_tasks (fresh : ℕ → String) (now : ℚ) : ActiveFile → List Task
  | .absent => []
  | .malformed => []
  | .notList => []
  | .list recs => (load_records fresh now 0 recs).getD []

/-- A line of history.jsonl as `remove_last_from_history` sees it:
whitespace-only, unparseable JSON, or a parsed entry carrying a task id. -/
inductive HLine
  | blank
  | junk
  | entry (id : String)
  deriving DecidableEq, Repr

/-- Dispatch on the candidate tail line of the history file (the inner
`try: json.loads` of `remove_last_from_history`): `work` is the line list
the rewrite would be based on, `orig` the untouched file. -/
def historyStep (expected : String) (orig : List HLine) :
    HLine → List HLine → Bool × Option (List HLine)
  | HLine.entry i, work =>
      if i = expected then (true, some work.dropLast) else (false, some orig)
  | _, _ => (false, some orig)

/-- `remove_last_from_history`: returns the success flag and the resulting
file state (`none` = absent).  A blank final line makes the code look at
the second-to-last line only. -/
def remove_last_from_history (expected : String) :
    Option (List HLine) → Bool × Option (List HLine)
  | none => (false, none)
  | some lines =>
    match lines.getLast? with
    | none => (false, some lines)
    | some last =>
      if last = HLine.blank then
        if 2 ≤ lines.length then
          historyStep expected lines
            ((lines.dropLast.getLast?).getD HLine.blank) lines.dropLast
        else (false, some lines)
      else historyStep expected lines last lines

/-- `append_to_history`: append the serialized task as one line (its id is
what the tail check later inspects). -/
def append_to_history (t : Task) (hist : Option (List HLine)) : Option (List HLine) :=
  some (hist.getD [] ++ [HLine.entry t.id])

/-! ## main.py: AppController state and operations -/

/-- The mutable state of `AppController` (together with the overlay's
`focused_index` and the history file it reads and writes). -/
structure AppState where
  tasks : List Task
  focused : Int
  active_alarms : Finset String
  auto_paused : Finset String
  last_completed : Option (Task × ℕ)
  history : Option (List HLine)
  deriving DecidableEq

/-- `OverlayWindow.get_focused_task`: the task at `focused_index`, or
`None` when the index is out of range. -/
def AppState.get_focused (s : AppState) : Option Task :=
  if s.focused < 0 then none else s.tasks[s.focused.toNat]?

/-- The task-object mutations of `AppController.pause_task`: reset the
alarm level when the task had an active alarm, close the open interval,
set the state to Paused. -/
def pause_one (inAlarms : Bool) (now : ℚ) (t : Task) : Task :=
  let t1 := if inAlarms then { t with last_alarm_level := 0 } else t
  { t1.end_interval now with state := TaskState.paused }

/-- `AppController.pause_task`. -/
def AppState.pause_task (now : ℚ) (s : AppState) : AppState :=
  match s.get_focused with
  | none => s
  | some t =>
    { s with
      tasks := s.tasks.set s.focused.toNat
        (pause_one (t.id ∈ s.active_alarms) now t)
      active_alarms := s.active_alarms.erase t.id }

/-- The task-object mutations of `AppController.start_task`. -/
def start_one (now : ℚ) (t : Task) : Task :=
  let t1 := { t with state := TaskState.ongoing }
  let t2 := if t1.started_at = none then { t1 with started_at := some now } else t1
  t2.start_interval now

/-- `AppController.start_task`. -/
def AppState.start_task (now : ℚ) (s : AppState) : AppState :=
  match s.get_focused with
  | none => s
  | some t =>
    { s with
      tasks := s.tasks.set s.focused.toNat (start_one now t) }

/-- `AppController.toggle_start_pause`. -/
def AppState.toggle_start_pause (now : ℚ) (s : AppState) : AppState :=
  match s.get_focused with
  | none => s
  | some t =>
    if t.state = TaskState.ongoing then s.pause_task now else s.start_task now

/-- The task-object mutations of `AppController.complete_task`. -/
def complete_one (now : ℚ) (t : Task) : Task :=
  { t.end_interval now with
    state := TaskState.completed
    completed_at := some now }

/-- `AppController.complete_task`: stash the task for undo, close its
interval, mark completed, append it to history, remove it from the active
set, clamp the focus, clear any active alarm for it. -/
def AppState.complete_task (now : ℚ) (s : AppState) : AppState :=
  match s.get_focused with
  | none => s
  | some t =>
    let t' := complete_one now t
    let tasks' := s.tasks.eraseIdx s.focused.toNat
    let focused' : Int :=
      if s.focused.toNat ≥ tasks'.length ∧ 0 < tasks'.length then
        (tasks'.length : Int) - 1
      else if tasks'.length = 0 then -1
      else s.focused
    { s with
      tasks := tasks'
      focused := focused'
      active_alarms := s.active_alarms.erase t.id
      last_completed := some (t', s.focused.toNat)
      history := append_to_history t' s.history }

/-- `AppController.undo_complete`: only the stashed most recently
completed task can be restored, and only when the matching tail entry is
removed from the history log; on success the task is reopened, reinserted
at `min(original index, |tasks|)`, and focused. -/
def AppState.undo_complete (now : ℚ) (s : AppState) : AppState :=
  match s.last_completed with
  | none => s
  | some (t, idx) =>
    match remove_last_from_history t.id s.history with
    | (false, _) => s
    | (true, hist') =>
      let t' := Task.start_interval now
        { t with state := TaskState.ongoing, completed_at := none }
      let k := min idx s.tasks.length
      { s with
        tasks := s.tasks.insertIdx k t'
        focused := (k : Int)
        history := hist'
        last_completed := none }

/-- `AppController.dismiss_alarm`: clear every active alarm (tasks are
untouched). -/
def AppState.dismiss_alarm (s : AppState) : AppState :=
  { s with active_alarms := ∅ }

/-- The task built by `AppController._on_task_submitted` before insertion
(`ambitious = 0` means no stretch goal, `parent = ""` means top-level). -/
def new_task (freshId : String) (now : ℚ) (name : String) (minutes ambitious : Int)
    (parent : String) : Task :=
  Task.start_interval now <| Task.post_init freshId now
    { id := ""
      name := name
      estimated_seconds := minutes * 60
      state := TaskState.ongoing
      elapsed_seconds := 0
      created_at := none
      started_at := some now
      completed_at := none
      ambitious_seconds := if 0 < ambitious then some (ambitious * 60) else none
      linear_issue := none
      last_alarm_level := 0
      work_intervals := []
      parent_task_id := if parent = "" then none else some parent }

/-- `AppController._on_task_submitted`: insert the new auto-started task
(after its parent and that parent's existing subtasks when it is a
subtask, else at the end) and focus it. -/
def AppState.on_task_submitted (freshId : String) (now : ℚ) (name : String)
    (minutes ambitious : Int) (parent : String) (s : AppState) : AppState :=
  let task := new_task freshId now name minutes ambitious parent
  let place : List Task × ℕ :=
    if parent ≠ "" then
      match s.tasks.findIdx? (fun t => t.id = parent) with
      | some pi =>
        let k := pi + 1 +
          ((s.tasks.drop (pi + 1)).takeWhile
            (fun t => t.parent_task_id = some parent)).length
        (s.tasks.insertIdx k task, k)
      | none => (s.tasks ++ [task], s.tasks.length)
    else (s.tasks ++ [task], s.tasks.length)
  { s with tasks := place.1, focused := (place.2 : Int) }

/-- The per-task mutation of `AppController._on_sleep`. -/
def sleep_one (now : ℚ) (t : Task) : Task :=
  if t.state = TaskState.ongoing then
    { t.end_interval now with
      state := TaskState.paused
      last_alarm_level := 0 }
  else t

/-- `AppController._on_sleep`: clear alarms, pause every Ongoing task and
remember which ones were auto-paused. -/
def AppState.on_sleep (now : ℚ) (s : AppState) : AppState :=
  { s with
    active_alarms := ∅
    tasks := s.tasks.map (sleep_one now)
    auto_paused :=
      ((s.tasks.filter (fun t => t.state = TaskState.ongoing)).map Task.id).toFinset }

/-- The per-task mutation of `AppController._on_wake`. -/
def wake_one (auto : Finset String) (now : ℚ) (t : Task) : Task :=
  if t.id ∈ auto ∧ t.state = TaskState.paused then
    Task.start_interval now { t with state := TaskState.ongoing }
  else t

/-- `AppController._on_wake`: resume exactly the remembered auto-paused
tasks that are still Paused, then forget them. -/
def AppState.on_wake (now : ℚ) (s : AppState) : AppState :=
  { s with
    tasks := s.tasks.map (wake_one s.auto_paused now)
    auto_paused := ∅ }

/-! ## task_dialog.py -/

/-- Python `str.strip()`: drop whitespace from both ends (structurally,
so that it evaluates on concrete inputs). -/
def pyStrip (s : String) : String :=
  ⟨((s.data.dropWhile Char.isWhitespace).reverse.dropWhile
      Char.isWhitespace).reverse⟩

/-- The numeric value of a decimal digit character. -/
def digitVal (c : Char) : Option ℕ :=
  if c.isDigit then some (c.toNat - 48) else none

/-- A nonempty all-digit string read as a natural number. -/
def parseDigits (cs : List Char) : Option ℕ :=
  if cs = [] then none
  else
    cs.foldl
      (fun acc c =>
        match acc, digitVal c with
        | some n, some d => some (n * 10 + d)
        | _, _ => none)
      (some 0)

/-- Python `int(text)` on an already-stripped decimal string: optional
sign then digits, `None` standing for `ValueError`.  (Digit-group
underscores, which CPython also accepts, are not modelled.) -/
def pyInt (s : String) : Option Int :=
  match (pyStrip s).data with
  | '-' :: rest => (parseDigits rest).map (fun n => -(n : Int))
  | '+' :: rest => (parseDigits rest).map (fun n => (n : Int))
  | cs => (parseDigits cs).map (fun n => (n : Int))

/-- The input widgets of `TaskDialog` at submission time.  The time field
is a `QSpinBox` clamped by the widget to `[MIN_TASK_MINUTES,
MAX_TASK_MINUTES] = [1, 999]`; the ambitious and parent fields are free
text. -/
structure DialogState where
  name_text : String
  time_value : Int
  ambitious_text : String
  parent_text : String
  parent_task_id : String
  deriving DecidableEq, Repr

/-- `TaskDialog._submit`: `some (name, minutes, ambitious, parent)` when
the `task_submitted` signal is emitted, `none` when the submission is
rejected before any emission. -/
def submit (d : DialogState) : Option (String × Int × Int × String) :=
  let name := pyStrip d.name_text
  if name = "" then none
  else
    let minutes := d.time_value
    if minutes ≤ 0 then none
    else
      let ambTxt := pyStrip d.ambitious_text
      let amb? : Option Int :=
        if ambTxt = "" then some 0
        else
          match pyInt ambTxt with
          | none => none
          | some a => if a < 0 then none else some a
      match amb? with
      | none => none
      | some amb =>
        if 0 < amb ∧ minutes < amb then none
        else
          some (name, minutes, amb,
            if pyStrip d.parent_text = "" then "" else d.parent_task_id)

/-- The controller's reaction to a dialog submission: a rejected
submission emits nothing, so the state is unchanged; an accepted one runs
`_on_task_submitted`. -/
def handle_submit (freshId : String) (now : ℚ) (d : DialogState)
    (s : AppState) : AppState :=
  match submit d with
  | none => s
  | some (name, minutes, amb, parent) =>
    s.on_task_submitted freshId now name minutes amb parent

/-! ## Spec-side definitions (for refinement comparisons) -/

/-- Modelled from the spec: task creation is accepted iff the trimmed
name is non-empty, `1 <= estimatedMinutes <= 999`, and the ambitious
value, when given (non-empty field), parses to a value `> 0` and
`<= estimatedMinutes`. -/
def specAccepts (d : DialogState) : Prop :=
  pyStrip d.name_text ≠ "" ∧ 1 ≤ d.time_value ∧ d.time_value ≤ 999 ∧
    (pyStrip d.ambitious_text ≠ "" →
      ∃ a, pyInt (pyStrip d.ambitious_text) = some a ∧ 0 < a ∧ a ≤ d.time_value)

instance (d : DialogState) : Decidable (specAccepts d) := by
  unfold specAccepts
  infer_instance

/-- Modelled from the spec: the last non-empty (non-blank) line of the
history log, the line `removeLastHistoryEntry` is said to inspect. -/
def lastNonBlank (lines : List HLine) : Option HLine :=
  (lines.filter (fun l => l ≠ HLine.blank)).getLast?

/-! ## Alarm lemmas (timer_engine.py) -/

theorem check_alarm_eq_some (t : Task) (l : Int) :
    check_alarm t = some l ↔
      (t.state = TaskState.ongoing ∧ 0 < t.estimated_seconds ∧
        1 ≤ t.elapsed_seconds / (t.estimated_seconds : ℚ) ∧
        l = max 1 ⌊t.elapsed_seconds / (t.estimated_seconds : ℚ)⌋ ∧
        t.last_alarm_level < l) := by
  unfold check_alarm
  split_ifs with h1 h2 h3 <;> simp_all
  omega

theorem tick_one_fst_state (t : Task) : (tick_one t).1.state = t.state := by
  unfold tick_one
  by_cases h1 : t.state = TaskState.ongoing
  · rw [if_pos h1]
    cases hc : check_alarm { t with elapsed_seconds := t.elapsed_seconds + 1/10 } <;>
      simp [hc]
  · rw [if_neg h1]

theorem tick_one_snd_none (t : Task) (h : (tick_one t).2 = none) :
    (tick_one t).1.last_alarm_level = t.last_alarm_level := by
  unfold tick_one at *
  by_cases h1 : t.state = TaskState.ongoing
  · rw [if_pos h1] at *
    cases hc : check_alarm { t with elapsed_seconds := t.elapsed_seconds + 1/10 } <;>
      simp_all
  · rw [if_neg h1]

theorem tick_one_snd_some (t : Task) (i : String) (l : Int)
    (h : (tick_one t).2 = some (i, l)) :
    (tick_one t).1.last_alarm_level = l ∧ t.last_alarm_level < l ∧ i = t.id := by
  unfold tick_one at *
  by_cases h1 : t.state = TaskState.ongoing
  · rw [if_pos h1] at *
    cases hc : check_alarm { t with elapsed_seconds := t.elapsed_seconds + 1/10 } with
    | none => simp_all
    | some l' =>
      have hlt := ((check_alarm_eq_some _ _).1 hc).2.2.2.2
      simp_all
  · rw [if_neg h1] at h
    simp at h

theorem run_ticks_zero (t : Task) : run_ticks t 0 = (t, []) := rfl

theorem run_ticks_succ_snd (t : Task) (n : ℕ) :
    (run_ticks t (n+1)).2 =
      ((tick_one t).2.map Prod.snd).toList ++ (run_ticks (tick_one t).1 n).2 := rfl

theorem run_ticks_levels (n : ℕ) (t : Task) :
    (∀ l ∈ (run_ticks t n).2, t.last_alarm_level < l) ∧
      List.Chain' (· < ·) (run_ticks t n).2 := by
  induction n generalizing t with
  | zero => simp [run_ticks_zero]
  | succ n ih =>
    cases hev : (tick_one t).2 with
    | none =>
      have hlast := tick_one_snd_none t hev
      have hmain := ih (tick_one t).1
      rw [hlast] at hmain
      rw [run_ticks_succ_snd, hev]
      simpa using hmain
    | some p =>
      obtain ⟨i, l⟩ := p
      obtain ⟨hset, hlt, -⟩ := tick_one_snd_some t i l hev
      obtain ⟨ihmem, ihchain⟩ := ih (tick_one t).1
      rw [hset] at ihmem
      rw [run_ticks_succ_snd, hev]
      have hform : ((some (i, l)).map Prod.snd).toList ++ (run_ticks (tick_one t).1 n).2
          = l :: (run_ticks (tick_one t).1 n).2 := rfl
      rw [hform]
      constructor
      · intro x hx
        rcases List.mem_cons.1 hx with rfl | hx
        · exact hlt
        · exact hlt.trans (ihmem x hx)
      · exact List.chain'_cons'.2
          ⟨fun b hb => ihmem b (List.mem_of_mem_head? hb), ihchain⟩

/-! ## Claim theorems -/

/-- C1: the alarm check fires iff the task is Ongoing, has a positive
estimate, ratio = elapsed/estimated ≥ 1 and max(1, floor ratio) exceeds
`lastAlarmLevel`; on firing the tick records the fired level as the new
`lastAlarmLevel`, so over any tick sequence the fired levels strictly
increase: no level repeats and no recorded level re-fires. -/
theorem alarm_fires_iff_and_levels_never_repeat :
    (∀ (t : Task) (l : Int), check_alarm t = some l ↔
        (t.state = TaskState.ongoing ∧ 0 < t.estimated_seconds ∧
          1 ≤ t.elapsed_seconds / (t.estimated_seconds : ℚ) ∧
          l = max 1 ⌊t.elapsed_seconds / (t.estimated_seconds : ℚ)⌋ ∧
          t.last_alarm_level < l))
    ∧ (∀ (t : Task) (i : String) (l : Int), (tick_one t).2 = some (i, l) →
        (tick_one t).1.last_alarm_level = l ∧ i = t.id)
    ∧ (∀ (t : Task) (n : ℕ),
        (∀ l ∈ (run_ticks t n).2, t.last_alarm_level < l)
        ∧ List.Chain' (· < ·) (run_ticks t n).2
        ∧ (run_ticks t n).2.Nodup) := by
  refine ⟨check_alarm_eq_some,
    fun t i l h => ⟨(tick_one_snd_some t i l h).1, (tick_one_snd_some t i l h).2.2⟩,
    fun t n => ?_⟩
  obtain ⟨hmem, hchain⟩ := run_ticks_levels n t
  refine ⟨hmem, hchain, ?_⟩
  exact (List.chain'_iff_pairwise.1 hchain).imp fun h => ne_of_lt h

/-- C7: computeElapsed equals the stored scalar when there are no
intervals, is monotone in `now` when an interval is open, and does not
depend on `now` at all when every interval is closed. -/
theorem compute_elapsed_fallback_monotone_constant :
    (∀ (t : Task) (now : ℚ), t.work_intervals = [] →
        t.compute_elapsed now = t.elapsed_seconds)
    ∧ (∀ (t : Task) (n1 n2 : ℚ), (∃ iv ∈ t.work_intervals, iv.stop = none) →
        n1 ≤ n2 → t.compute_elapsed n1 ≤ t.compute_elapsed n2)
    ∧ (∀ (t : Task) (n1 n2 : ℚ), (∀ iv ∈ t.work_intervals, iv.stop ≠ none) →
        t.compute_elapsed n1 = t.compute_elapsed n2) := by
  refine ⟨fun t now h => by simp [Task.compute_elapsed, h], ?_, ?_⟩
  · intro t n1 n2 _ hle
    unfold Task.compute_elapsed
    split_ifs with he
    · exact le_refl _
    · refine List.sum_le_sum fun iv _ => ?_
      cases hs : iv.stop with
      | none => simpa [hs] using sub_le_sub_right hle iv.start
      | some q => simp [hs]
  · intro t n1 n2 hall
    unfold Task.compute_elapsed
    split_ifs with he
    · rfl
    · refine congrArg List.sum (List.map_congr_left fun iv hiv => ?_)
      cases hs : iv.stop with
      | none => exact absurd hs (hall iv hiv)
      | some q => simp [hs]

/-- C10: dismissing alarms empties the active-alarm set while leaving
every task (in particular its `lastAlarmLevel`) untouched; since any fire
needs a level strictly above `lastAlarmLevel`, a level at or below the
recorded one can never fire again while the task just keeps running. -/
theorem dismiss_alarm_frame_and_no_same_level_refire :
    (∀ s : AppState, (s.dismiss_alarm).active_alarms = ∅
        ∧ (s.dismiss_alarm).tasks = s.tasks
        ∧ (s.dismiss_alarm).focused = s.focused
        ∧ (s.dismiss_alarm).last_completed = s.last_completed
        ∧ (s.dismiss_alarm).history = s.history)
    ∧ (∀ (t : Task) (l : Int), check_alarm t = some l → t.last_alarm_level < l)
    ∧ (∀ (t : Task) (n : ℕ) (l : Int), l ∈ (run_ticks t n).2 →
        t.last_alarm_level < l) := by
  refine ⟨fun s => ⟨rfl, rfl, rfl, rfl, rfl⟩, ?_, ?_⟩
  · intro t l h
    exact ((check_alarm_eq_some t l).1 h).2.2.2.2
  · intro t n l hl
    exact (run_ticks_levels n t).1 l hl

/-- C4 counterexample: in `[entry "a", blank, blank]` the last non-empty
line is the matching entry `"a"`, yet the function fails (it only skips a
single trailing blank line) and leaves the file untouched. -/
theorem remove_last_two_trailing_blanks_cex :
    lastNonBlank [HLine.entry "a", HLine.blank, HLine.blank]
        = some (HLine.entry "a")
    ∧ remove_last_from_history "a"
        (some [HLine.entry "a", HLine.blank, HLine.blank])
      = (false, some [HLine.entry "a", HLine.blank, HLine.blank]) := by
  decide

/-- C4 (amended): the tail inspection skips at most ONE trailing blank
line.  With the candidate line an entry, removal succeeds iff its id
matches, dropping the entry (and the single skipped blank); in every
other case — absent file, empty file, unparseable candidate, id
mismatch, or a candidate that is still blank — the file is untouched and
the call fails. -/
theorem remove_last_characterization (e : String) :
    (remove_last_from_history e none = (false, none))
    ∧ (remove_last_from_history e (some []) = (false, some []))
    ∧ (∀ (lines : List HLine) (i : String),
        lines.getLast? = some (HLine.entry i) →
        remove_last_from_history e (some lines) =
          if i = e then (true, some lines.dropLast) else (false, some lines))
    ∧ (∀ lines : List HLine, lines.getLast? = some HLine.junk →
        remove_last_from_history e (some lines) = (false, some lines))
    ∧ (∀ (lines : List HLine) (i : String),
        lines.getLast? = some HLine.blank →
        lines.dropLast.getLast? = some (HLine.entry i) →
        remove_last_from_history e (some lines) =
          if i = e then (true, some lines.dropLast.dropLast)
          else (false, some lines))
    ∧ (∀ lines : List HLine, lines.getLast? = some HLine.blank →
        (lines.dropLast.getLast? = some HLine.blank
          ∨ lines.dropLast.getLast? = some HLine.junk
          ∨ lines.dropLast = []) →
        remove_last_from_history e (some lines) = (false, some lines)) := by
  have hlen : ∀ (lines : List HLine) (x : HLine),
      lines.dropLast.getLast? = some x → 2 ≤ lines.length := by
    intro lines x hx
    have hne : lines.dropLast ≠ [] := by
      intro hnil
      rw [hnil] at hx
      cases hx
    have := List.length_pos.2 hne
    rw [List.length_dropLast] at this
    omega
  refine ⟨rfl, rfl, ?_, ?_, ?_, ?_⟩
  · intro lines i h
    simp only [remove_last_from_history]
    rw [h]
    dsimp only
    rw [if_neg (by simp)]
    rfl
  · intro lines h
    simp only [remove_last_from_history]
    rw [h]
    dsimp only
    rw [if_neg (by simp)]
    rfl
  · intro lines i h1 h2
    simp only [remove_last_from_history]
    rw [h1]
    dsimp only
    rw [if_pos rfl, if_pos (hlen lines _ h2), h2]
    rfl
  · intro lines h1 h2
    simp only [remove_last_from_history]
    rw [h1]
    dsimp only
    rw [if_pos rfl]
    rcases h2 with h2 | h2 | h2
    · rw [if_pos (hlen lines _ h2), h2]
      rfl
    · rw [if_pos (hlen lines _ h2), h2]
      rfl
    · have hle : lines.length ≤ 1 := by
        have := congrArg List.length h2
        rw [List.length_dropLast] at this
        simp at this
        omega
      rw [if_neg (by omega)]

/-- `post_init` only touches `id` and `created_at`. -/
theorem post_init_fields (f : String) (now : ℚ) (t : Task) :
    (Task.post_init f now t).ambitious_seconds = t.ambitious_seconds
    ∧ (Task.post_init f now t).work_intervals = t.work_intervals
    ∧ (Task.post_init f now t).parent_task_id = t.parent_task_id
    ∧ (Task.post_init f now t).state = t.state
    ∧ (Task.post_init f now t).last_alarm_level = t.last_alarm_level := by
  simp only [Task.post_init]
  split_ifs <;> exact ⟨rfl, rfl, rfl, rfl, rfl⟩

/-- A minimal well-formed active.json record, used in concrete inputs. -/
def sampleRec : RawTask :=
  { id := some "t1"
    name := some "x"
    estimated_seconds := some 60
    state := some "paused" }

/-- C5 counterexample: a well-formed JSON list holding one parseable
record followed by one non-dict entry loads as the EMPTY list — the
parseable record is not kept, because the print inside the inner except
handler raises on the non-dict record and the outer handler returns
empty. -/
theorem load_active_non_dict_aborts_cex :
    (Task.from_dict "u" 0 sampleRec).isSome = true
    ∧ (load_active_tasks (fun _ => "u") 0
        (ActiveFile.list [JsonRec.dict sampleRec])).length = 1
    ∧ load_active_tasks (fun _ => "u") 0
        (ActiveFile.list [JsonRec.dict sampleRec, JsonRec.nonDict]) = [] := by
  decide

/-- C5 (amended): loadActive returns empty when the file is absent,
malformed, or not a list; over a list of DICT records it skips each
record that fails to parse and keeps the rest (a non-dict entry instead
aborts the whole load to empty); parsed records default missing
`ambitious_seconds` to null, missing `work_intervals` to the empty list
and missing `parent_task_id` to null. -/
theorem load_active_skips_bad_records_and_defaults
    (fresh : ℕ → String) (now : ℚ) :
    (load_active_tasks fresh now ActiveFile.absent = []
      ∧ load_active_tasks fresh now ActiveFile.malformed = []
      ∧ load_active_tasks fresh now ActiveFile.notList = [])
    ∧ (∀ (k : ℕ) (r : RawTask) (rest : List JsonRec),
        Task.from_dict (fresh k) now r = none →
        load_records fresh now k (JsonRec.dict r :: rest)
          = load_records fresh now (k+1) rest)
    ∧ (∀ (k : ℕ) (r : RawTask) (rest : List JsonRec) (t : Task),
        Task.from_dict (fresh k) now r = some t →
        load_records fresh now k (JsonRec.dict r :: rest)
          = (load_records fresh now (k+1) rest).map (t :: ·))
    ∧ (∀ (k : ℕ) (recs : List JsonRec),
        (∀ x ∈ recs, x ≠ JsonRec.nonDict) →
        (load_records fresh now k recs).isSome = true)
    ∧ (∀ (freshId : String) (d : RawTask) (t : Task),
        Task.from_dict freshId now d = some t →
        (d.ambitious_seconds = none → t.ambitious_seconds = none)
        ∧ (d.work_intervals = none → t.work_intervals = [])
        ∧ (d.parent_task_id = none → t.parent_task_id = none)) := by
  refine ⟨⟨rfl, rfl, rfl⟩, ?_, ?_, ?_, ?_⟩
  · intro k r rest h
    simp only [load_records]
    rw [h]
  · intro k r rest t h
    simp only [load_records]
    rw [h]
  · intro k recs
    induction recs generalizing k with
    | nil => intro _; rfl
    | cons x rest ih =>
      intro hx
      cases x with
      | nonDict => exact absurd rfl (hx _ (List.mem_cons_self _ _))
      | dict r =>
        have hrest := ih (k+1) fun y hy => hx y (List.mem_cons_of_mem _ hy)
        simp only [load_records]
        cases hfd : Task.from_dict (fresh k) now r with
        | none => exact hrest
        | some t => simpa using hrest
  · intro freshId d t h
    unfold Task.from_dict at h
    cases hs : d.state with
    | none => rw [hs] at h; cases h
    | some sv =>
      rw [hs] at h
      dsimp only at h
      cases hps : parseState sv with
      | none => rw [hps] at h; cases h
      | some st =>
        rw [hps] at h
        dsimp only at h
        cases hid : d.id with
        | none => rw [hid] at h; cases h
        | some iv =>
          cases hnm : d.name with
          | none => rw [hid, hnm] at h; cases h
          | some nv =>
            cases hest : d.estimated_seconds with
            | none => rw [hid, hnm, hest] at h; cases h
            | some ev =>
              rw [hid, hnm, hest] at h
              dsimp only at h
              obtain rfl : Task.post_init freshId now _ = t := by
                injection h
              refine ⟨fun ha => ?_, fun hw => ?_, fun hp => ?_⟩
              · rw [(post_init_fields freshId now _).1]
                simp [ha]
              · rw [(post_init_fields freshId now _).2.1]
                simp [hw]
              · rw [(post_init_fields freshId now _).2.2.1]
                simp [hp]

/-! ## C3: pause and alarm levels -/

/-- A concrete Ongoing task with a recorded alarm level. -/
def alarmedTask : Task :=
  { id := "a"
    name := "x"
    estimated_seconds := 60
    state := TaskState.ongoing
    elapsed_seconds := 125
    created_at := some 0
    started_at := some 0
    completed_at := none
    ambitious_seconds := none
    linear_issue := none
    last_alarm_level := 1
    work_intervals := [⟨0, none⟩]
    parent_task_id := none }

/-- A state focused on `alarmedTask` whose alarm set is empty (as after a
dismissal or an app restart), though the task's recorded level is 1. -/
def dismissedState : AppState :=
  { tasks := [alarmedTask]
    focused := 0
    active_alarms := ∅
    auto_paused := ∅
    last_completed := none
    history := none }

/-- C3 counterexample: pausing a task with `lastAlarmLevel = 1 > 0` that
is NOT in the active-alarm set (here: after its alarm was dismissed)
leaves `lastAlarmLevel` at 1, not 0, even though the pause itself goes
through. -/
theorem pause_after_dismiss_keeps_level_cex :
    alarmedTask.last_alarm_level = 1
    ∧ ((dismissedState.pause_task 5).tasks.map Task.last_alarm_level) = [1]
    ∧ ((dismissedState.pause_task 5).tasks.map Task.state) = [TaskState.paused] := by
  decide

/-- C3 (amended): pausing the focused task always sets it to Paused, but
resets `lastAlarmLevel` to 0 (clearing its alarm membership) only when
the task is in the active-alarm set; a focused task not in that set keeps
its `lastAlarmLevel` across the pause. -/
theorem pause_resets_alarm_level_only_when_active (s : AppState) (now : ℚ)
    (t : Task) (hf : s.get_focused = some t) :
    (s.pause_task now).get_focused
        = some (pause_one (t.id ∈ s.active_alarms) now t)
    ∧ (t.id ∈ s.active_alarms → (pause_one true now t).last_alarm_level = 0)
    ∧ (t.id ∉ s.active_alarms →
        (pause_one false now t).last_alarm_level = t.last_alarm_level)
    ∧ (pause_one (t.id ∈ s.active_alarms) now t).state = TaskState.paused
    ∧ t.id ∉ (s.pause_task now).active_alarms := by
  have hf0 := hf
  have hneg : ¬ s.focused < 0 := by
    intro hlt0
    unfold AppState.get_focused at hf0
    rw [if_pos hlt0] at hf0
    cases hf0
  unfold AppState.get_focused at hf0
  rw [if_neg hneg] at hf0
  have hlt : s.focused.toNat < s.tasks.length :=
    (List.getElem?_eq_some.1 hf0).1
  have hpt : s.pause_task now =
      { s with
        tasks := s.tasks.set s.focused.toNat
          (pause_one (t.id ∈ s.active_alarms) now t)
        active_alarms := s.active_alarms.erase t.id } := by
    unfold AppState.pause_task
    rw [hf]
  refine ⟨?_, fun _ => rfl, fun _ => rfl, ?_, ?_⟩
  · rw [hpt]
    unfold AppState.get_focused
    dsimp only
    rw [if_neg hneg, List.getElem?_set_self', List.getElem?_eq_getElem hlt]
    rfl
  · unfold pause_one
    split_ifs <;> rfl
  · rw [hpt]
    exact Finset.not_mem_erase t.id s.active_alarms

/-- A copy of `dismissedState` whose alarm set actually holds the task. -/
def alarmActiveState : AppState :=
  { dismissedState with active_alarms := {"a"} }

/-- C3 witness: the amended pause behaviour at a concrete state, with the
focused task in the active-alarm set. -/
theorem pause_resets_alarm_level_witness :
    (alarmActiveState.pause_task 5).get_focused
        = some (pause_one (alarmedTask.id ∈ alarmActiveState.active_alarms)
            5 alarmedTask)
    ∧ (alarmedTask.id ∈ alarmActiveState.active_alarms →
        (pause_one true 5 alarmedTask).last_alarm_level = 0)
    ∧ (alarmedTask.id ∉ alarmActiveState.active_alarms →
        (pause_one false 5 alarmedTask).last_alarm_level
          = alarmedTask.last_alarm_level)
    ∧ (pause_one (alarmedTask.id ∈ alarmActiveState.active_alarms)
        5 alarmedTask).state = TaskState.paused
    ∧ alarmedTask.id ∉ (alarmActiveState.pause_task 5).active_alarms :=
  pause_resets_alarm_level_only_when_active alarmActiveState 5 alarmedTask
    (by decide)

/-! ## C9: task-creation validation -/

/-- The dialog submission the claim mispredicts: an explicit ambitious
value of 0. -/
def zeroAmbitiousDialog : DialogState :=
  { name_text := "x"
    time_value := 30
    ambitious_text := "0"
    parent_text := ""
    parent_task_id := "" }

/-- C9 counterexample: an ambitious field holding the explicit value `0`
is given yet not `> 0`; the spec-side acceptance predicate rejects it,
but `_submit` accepts the submission (treating 0 as "no stretch goal"). -/
theorem submit_zero_ambitious_cex :
    (submit zeroAmbitiousDialog).isSome = true
    ∧ pyStrip zeroAmbitiousDialog.ambitious_text ≠ ""
    ∧ pyInt (pyStrip zeroAmbitiousDialog.ambitious_text) = some 0
    ∧ ¬ specAccepts zeroAmbitiousDialog := by
  decide

/-- C9 (amended): with the time spin box clamped to `[1, 999]`, a
submission is accepted iff the trimmed name is non-empty and the
ambitious field is empty or parses to a non-negative value that, when
positive, is at most the estimate (`0` counts as "not given"); a rejected
submission emits no signal, so the controller state does not change. -/
theorem submit_accepted_iff_valid (d : DialogState)
    (h1 : 1 ≤ d.time_value) (h2 : d.time_value ≤ 999) :
    ((submit d).isSome = true ↔
      (pyStrip d.name_text ≠ ""
        ∧ (pyStrip d.ambitious_text = ""
            ∨ ∃ a : Int, pyInt (pyStrip d.ambitious_text) = some a ∧ 0 ≤ a
                ∧ (0 < a → a ≤ d.time_value))))
    ∧ (∀ (freshId : String) (now : ℚ) (s : AppState),
        submit d = none → handle_submit freshId now d s = s) := by
  constructor
  · unfold submit
    dsimp only
    by_cases hn : pyStrip d.name_text = ""
    · rw [if_pos hn]
      refine ⟨fun hfalse => Bool.noConfusion hfalse, ?_⟩
      rintro ⟨hn', -⟩
      exact absurd hn hn'
    · rw [if_neg hn, if_neg (show ¬ d.time_value ≤ 0 by omega)]
      by_cases ha : pyStrip d.ambitious_text = ""
      · rw [if_pos ha]
        dsimp only
        rw [if_neg (show ¬ ((0:Int) < 0 ∧ d.time_value < 0) by omega)]
        exact ⟨fun _ => ⟨hn, Or.inl ha⟩, fun _ => rfl⟩
      · rw [if_neg ha]
        cases hp : pyInt (pyStrip d.ambitious_text) with
        | none =>
          dsimp only
          refine ⟨fun hfalse => Bool.noConfusion hfalse, ?_⟩
          rintro ⟨-, h | ⟨a, hpa, -⟩⟩
          · exact absurd h ha
          · cases hpa
        | some a =>
          dsimp only
          by_cases hneg2 : a < 0
          · rw [if_pos hneg2]
            refine ⟨fun hfalse => Bool.noConfusion hfalse, ?_⟩
            rintro ⟨-, h | ⟨b, hpb, hb0, -⟩⟩
            · exact absurd h ha
            · injection hpb with hab
              omega
          · rw [if_neg hneg2]
            dsimp only
            by_cases hbig : 0 < a ∧ d.time_value < a
            · rw [if_pos hbig]
              refine ⟨fun hfalse => Bool.noConfusion hfalse, ?_⟩
              rintro ⟨-, h | ⟨b, hpb, hb0, hble⟩⟩
              · exact absurd h ha
              · injection hpb with hab
                subst hab
                have := hble hbig.1
                omega
            · rw [if_neg hbig]
              exact ⟨fun _ => ⟨hn, Or.inr ⟨a, rfl, by omega, fun hpos => by omega⟩⟩,
                fun _ => rfl⟩
  · intro freshId now s hnone
    unfold handle_submit
    rw [hnone]

/-- A valid dialog submission, for the C9 witness. -/
def validDialog : DialogState :=
  { name_text := "x"
    time_value := 30
    ambitious_text := "20"
    parent_text := ""
    parent_task_id := "" }

/-- C9 witness: the amended acceptance condition at a concrete valid
input. -/
theorem submit_accepted_iff_valid_witness :
    ((submit validDialog).isSome = true ↔
      (pyStrip validDialog.name_text ≠ ""
        ∧ (pyStrip validDialog.ambitious_text = ""
            ∨ ∃ a : Int, pyInt (pyStrip validDialog.ambitious_text) = some a
                ∧ 0 ≤ a ∧ (0 < a → a ≤ validDialog.time_value))))
    ∧ (∀ (freshId : String) (now : ℚ) (s : AppState),
        submit validDialog = none →
          handle_submit freshId now validDialog s = s) :=
  submit_accepted_iff_valid validDialog (by decide) (by decide)

/-! ## Interval invariants -/

/-- Every interval before the last one is closed (the shape the code
maintains: `start_interval` appends at the end, `end_interval` closes
the end). -/
def dropLastClosed (t : Task) : Prop :=
  ∀ iv ∈ t.work_intervals.dropLast, iv.stop ≠ none

/-- The task has some open interval. -/
def hasOpen (t : Task) : Prop :=
  ∃ iv ∈ t.work_intervals, iv.stop = none

/-- Every interval of the task is closed. -/
def allClosed (t : Task) : Prop :=
  ∀ iv ∈ t.work_intervals, iv.stop ≠ none

/-- The per-task invariant: only the last interval can be open, and an
open interval exists exactly when the task is Ongoing. -/
def intervalsOk (t : Task) : Prop :=
  dropLastClosed t ∧ (hasOpen t ↔ t.state = TaskState.ongoing)

/-- Number of open intervals. -/
def openCount (t : Task) : ℕ :=
  (t.work_intervals.filter (fun iv => iv.stop = none)).length

/-- The invariant exactly as the spec states it: at most one open
interval, and one exists iff the task is Ongoing. -/
def claimInv (t : Task) : Prop :=
  openCount t ≤ 1 ∧ (1 ≤ openCount t ↔ t.state = TaskState.ongoing)

/-- The whole-controller invariant: every active task satisfies
`intervalsOk`, and a stashed last-completed task is a Completed task
with all intervals closed. -/
def GInv (s : AppState) : Prop :=
  (∀ t ∈ s.tasks, intervalsOk t)
  ∧ (∀ p ∈ s.last_completed, intervalsOk p.1 ∧ p.1.state = TaskState.completed)

theorem allClosed_iff_not_hasOpen (t : Task) : allClosed t ↔ ¬ hasOpen t := by
  unfold allClosed hasOpen
  push_neg
  rfl

theorem allClosed_dropLastClosed (t : Task) (h : allClosed t) :
    dropLastClosed t :=
  fun iv hiv => h iv (List.dropLast_subset _ hiv)

/-- Fields other than `work_intervals` are untouched by `end_interval`. -/
theorem end_interval_fields (now : ℚ) (t : Task) :
    (t.end_interval now).state = t.state
    ∧ (t.end_interval now).id = t.id
    ∧ (t.end_interval now).last_alarm_level = t.last_alarm_level
    ∧ (t.end_interval now).completed_at = t.completed_at :=
  ⟨rfl, rfl, rfl, rfl⟩

theorem closeLast_closes (now : ℚ) :
    ∀ l : List Interval, (∀ iv ∈ l.dropLast, iv.stop ≠ none) →
      ∀ iv ∈ closeLast now l, iv.stop ≠ none := by
  intro l
  induction l with
  | nil => intro _ iv hiv; cases hiv
  | cons a rest ih =>
    intro hd iv hiv
    cases rest with
    | nil =>
      simp only [closeLast] at hiv
      split_ifs at hiv with hopen
      · simp only [List.mem_singleton] at hiv
        subst hiv
        simp
      · simp only [List.mem_singleton] at hiv
        subst hiv
        exact hopen
    | cons b rest2 =>
      simp only [closeLast, List.mem_cons] at hiv
      have hd' : ∀ iv ∈ (b :: rest2).dropLast, iv.stop ≠ none := by
        intro jv hjv
        exact hd jv (by simp [List.dropLast_cons_of_ne_nil, hjv])
      rcases hiv with rfl | hiv
      · exact hd iv (by simp [List.dropLast_cons_of_ne_nil])
      · exact ih hd' iv hiv

/-- After `end_interval`, a task whose non-final intervals were closed
has every interval closed. -/
theorem end_interval_allClosed (now : ℚ) (t : Task) (h : dropLastClosed t) :
    allClosed (t.end_interval now) := by
  intro iv hiv
  exact closeLast_closes now t.work_intervals h iv hiv

/-- After `start_interval` on an all-closed task: the invariant shape
holds again and the appended interval is open. -/
theorem start_interval_shape (now : ℚ) (t : Task) (h : allClosed t) :
    dropLastClosed (t.start_interval now) ∧ hasOpen (t.start_interval now) := by
  constructor
  · intro iv hiv
    unfold Task.start_interval at hiv
    simp only [List.dropLast_concat] at hiv
    exact h iv hiv
  · exact ⟨⟨now, none⟩, by simp [Task.start_interval], rfl⟩

theorem intervalsOk_of_allClosed_not_ongoing (t : Task)
    (h : allClosed t) (hs : t.state ≠ TaskState.ongoing) : intervalsOk t :=
  ⟨allClosed_dropLastClosed t h,
    ⟨fun ho => absurd ho ((allClosed_iff_not_hasOpen t).1 h),
     fun hst => absurd hst hs⟩⟩

/-- The strengthened per-task invariant implies the invariant as the
spec words it. -/
theorem intervalsOk_implies_claimInv (t : Task) (h : intervalsOk t) :
    claimInv t := by
  obtain ⟨hd, hiff⟩ := h
  have hcount : openCount t ≤ 1 := by
    unfold openCount
    rcases hlast : t.work_intervals.getLast? with - | last
    · have hnil : t.work_intervals = [] := List.getLast?_eq_none_iff.1 hlast
      simp [hnil]
    · have hsplit : t.work_intervals = t.work_intervals.dropLast ++ [last] := by
        exact (List.dropLast_append_getLast? _ hlast).symm
      rw [hsplit, List.filter_append]
      have h1 : (t.work_intervals.dropLast.filter (fun iv => iv.stop = none)).length = 0 := by
        rw [List.length_eq_zero, List.filter_eq_nil_iff]
        intro iv hiv
        simpa using hd iv hiv
      have h2 : (List.filter (fun iv => decide (iv.stop = none)) [last]).length ≤ 1 := by
        cases hstop : last.stop <;> simp [hstop]
      simp only [List.length_append, h1]
      omega
  refine ⟨hcount, ?_, ?_⟩
  · intro hge
    apply hiff.1
    unfold openCount at hge
    have : t.work_intervals.filter (fun iv => iv.stop = none) ≠ [] := by
      intro hnil
      rw [hnil] at hge
      simp at hge
    rcases List.exists_mem_of_ne_nil _ this with ⟨iv, hiv⟩
    have := List.mem_filter.1 hiv
    exact ⟨iv, this.1, by simpa using this.2⟩
  · intro hst
    obtain ⟨iv, hivmem, hivopen⟩ := hiff.2 hst
    unfold openCount
    have : iv ∈ t.work_intervals.filter (fun iv => iv.stop = none) :=
      List.mem_filter.2 ⟨hivmem, by simp [hivopen]⟩
    have hne : t.work_intervals.filter (fun iv => iv.stop = none) ≠ [] := by
      intro hnil
      rw [hnil] at this
      cases this
    have := List.length_pos.2 hne
    omega

/-! ## Per-operation invariant lemmas -/

theorem get_focused_mem (s : AppState) (t : Task) (hf : s.get_focused = some t) :
    t ∈ s.tasks := by
  have hneg : ¬ s.focused < 0 := by
    intro hlt0
    unfold AppState.get_focused at hf
    rw [if_pos hlt0] at hf
    cases hf
  unfold AppState.get_focused at hf
  rw [if_neg hneg] at hf
  exact List.getElem?_mem hf

theorem pause_one_shape (b : Bool) (now : ℚ) (t : Task) :
    (pause_one b now t).work_intervals = closeLast now t.work_intervals
    ∧ (pause_one b now t).state = TaskState.paused := by
  unfold pause_one
  cases b <;> exact ⟨rfl, rfl⟩

theorem intervalsOk_pause_one (b : Bool) (now : ℚ) (t : Task)
    (h : dropLastClosed t) : intervalsOk (pause_one b now t) := by
  obtain ⟨hw, hs⟩ := pause_one_shape b now t
  constructor
  · intro iv hiv
    rw [hw] at hiv
    exact closeLast_closes now _ h iv (List.dropLast_subset _ hiv)
  · constructor
    · rintro ⟨iv, hiv, hivopen⟩
      rw [hw] at hiv
      exact absurd hivopen (closeLast_closes now _ h iv hiv)
    · intro hcontra
      rw [hs] at hcontra
      cases hcontra

theorem start_one_shape (now : ℚ) (t : Task) :
    (start_one now t).work_intervals = t.work_intervals ++ [⟨now, none⟩]
    ∧ (start_one now t).state = TaskState.ongoing := by
  unfold start_one Task.start_interval
  dsimp only
  split_ifs <;> exact ⟨rfl, rfl⟩

theorem intervalsOk_start_one (now : ℚ) (t : Task) (h : allClosed t) :
    intervalsOk (start_one now t) := by
  obtain ⟨hw, hs⟩ := start_one_shape now t
  constructor
  · intro iv hiv
    rw [hw, List.dropLast_concat] at hiv
    exact h iv hiv
  · constructor
    · intro _
      exact hs
    · intro _
      exact ⟨⟨now, none⟩, by rw [hw]; simp, rfl⟩

theorem complete_one_shape (now : ℚ) (t : Task) :
    (complete_one now t).work_intervals = closeLast now t.work_intervals
    ∧ (complete_one now t).state = TaskState.completed
    ∧ (complete_one now t).completed_at = some now :=
  ⟨rfl, rfl, rfl⟩

theorem intervalsOk_complete_one (now : ℚ) (t : Task) (h : dropLastClosed t) :
    intervalsOk (complete_one now t) := by
  constructor
  · intro iv hiv
    exact closeLast_closes now _ h iv (List.dropLast_subset _ hiv)
  · constructor
    · rintro ⟨iv, hiv, hivopen⟩
      exact absurd hivopen (closeLast_closes now _ h iv hiv)
    · intro hcontra
      cases hcontra

theorem sleep_one_ongoing (now : ℚ) (t : Task) (h : t.state = TaskState.ongoing) :
    (sleep_one now t).work_intervals = closeLast now t.work_intervals
    ∧ (sleep_one now t).state = TaskState.paused
    ∧ (sleep_one now t).last_alarm_level = 0 := by
  unfold sleep_one
  rw [if_pos h]
  exact ⟨rfl, rfl, rfl⟩

theorem sleep_one_other (now : ℚ) (t : Task) (h : t.state ≠ TaskState.ongoing) :
    sleep_one now t = t := by
  unfold sleep_one
  rw [if_neg h]

theorem intervalsOk_sleep_one (now : ℚ) (t : Task) (h : intervalsOk t) :
    intervalsOk (sleep_one now t) := by
  by_cases hs : t.state = TaskState.ongoing
  · obtain ⟨hw, hst, -⟩ := sleep_one_ongoing now t hs
    constructor
    · intro iv hiv
      rw [hw] at hiv
      exact closeLast_closes now _ h.1 iv (List.dropLast_subset _ hiv)
    · constructor
      · rintro ⟨iv, hiv, hivopen⟩
        rw [hw] at hiv
        exact absurd hivopen (closeLast_closes now _ h.1 iv hiv)
      · intro hcontra
        rw [hst] at hcontra
        cases hcontra
  · rw [sleep_one_other now t hs]
    exact h

theorem wake_one_auto (auto : Finset String) (now : ℚ) (t : Task)
    (h : t.id ∈ auto ∧ t.state = TaskState.paused) :
    wake_one auto now t
      = Task.start_interval now { t with state := TaskState.ongoing } := by
  unfold wake_one
  rw [if_pos h]

theorem wake_one_other (auto : Finset String) (now : ℚ) (t : Task)
    (h : ¬ (t.id ∈ auto ∧ t.state = TaskState.paused)) :
    wake_one auto now t = t := by
  unfold wake_one
  rw [if_neg h]

theorem intervalsOk_wake_one (auto : Finset String) (now : ℚ) (t : Task)
    (h : intervalsOk t) : intervalsOk (wake_one auto now t) := by
  by_cases hc : t.id ∈ auto ∧ t.state = TaskState.paused
  · rw [wake_one_auto auto now t hc]
    have hnotopen : ¬ hasOpen t := by
      intro ho
      have hcontra := h.2.1 ho
      rw [hc.2] at hcontra
      cases hcontra
    have hclosed : allClosed { t with state := TaskState.ongoing } :=
      fun iv hiv => (allClosed_iff_not_hasOpen t).2 hnotopen iv hiv
    have hshape := start_interval_shape now { t with state := TaskState.ongoing } hclosed
    exact ⟨hshape.1, ⟨fun _ => rfl, fun _ => hshape.2⟩⟩
  · rw [wake_one_other auto now t hc]
    exact h

theorem new_task_shape (fid : String) (now : ℚ) (nm : String)
    (mins amb : Int) (par : String) :
    (new_task fid now nm mins amb par).work_intervals = [⟨now, none⟩]
    ∧ (new_task fid now nm mins amb par).state = TaskState.ongoing := by
  unfold new_task
  constructor
  · show (Task.post_init fid now _).work_intervals ++ [(⟨now, none⟩ : Interval)] = _
    rw [(post_init_fields fid now _).2.1]
    rfl
  · show (Task.post_init fid now _).state = _
    rw [(post_init_fields fid now _).2.2.2.1]

theorem intervalsOk_new_task (fid : String) (now : ℚ) (nm : String)
    (mins amb : Int) (par : String) :
    intervalsOk (new_task fid now nm mins amb par) := by
  obtain ⟨hw, hs⟩ := new_task_shape fid now nm mins amb par
  refine ⟨?_, ⟨fun _ => hs, fun _ => ⟨⟨now, none⟩, by rw [hw]; simp, rfl⟩⟩⟩
  intro iv hiv
  rw [hw] at hiv
  simp at hiv

theorem GInv_pause (s : AppState) (now : ℚ) (h : GInv s) :
    GInv (s.pause_task now) := by
  cases hf : s.get_focused with
  | none =>
    have hid : s.pause_task now = s := by
      unfold AppState.pause_task
      rw [hf]
    rw [hid]
    exact h
  | some t =>
    have hpt : s.pause_task now =
        { s with
          tasks := s.tasks.set s.focused.toNat
            (pause_one (t.id ∈ s.active_alarms) now t)
          active_alarms := s.active_alarms.erase t.id } := by
      unfold AppState.pause_task
      rw [hf]
    rw [hpt]
    refine ⟨?_, h.2⟩
    intro u hu
    rcases List.mem_or_eq_of_mem_set hu with hu | rfl
    · exact h.1 u hu
    · exact intervalsOk_pause_one _ now t (h.1 t (get_focused_mem s t hf)).1

theorem GInv_toggle (s : AppState) (now : ℚ) (h : GInv s) :
    GInv (s.toggle_start_pause now) := by
  cases hf : s.get_focused with
  | none =>
    have hid : s.toggle_start_pause now = s := by
      unfold AppState.toggle_start_pause
      rw [hf]
    rw [hid]
    exact h
  | some t =>
    have hred : s.toggle_start_pause now =
        if t.state = TaskState.ongoing then s.pause_task now
        else s.start_task now := by
      unfold AppState.toggle_start_pause
      rw [hf]
    rw [hred]
    split_ifs with hst
    · exact GInv_pause s now h
    · have hstart : s.start_task now =
          { s with tasks := s.tasks.set s.focused.toNat (start_one now t) } := by
        unfold AppState.start_task
        rw [hf]
      rw [hstart]
      refine ⟨?_, h.2⟩
      intro u hu
      rcases List.mem_or_eq_of_mem_set hu with hu | rfl
      · exact h.1 u hu
      · have hok := h.1 t (get_focused_mem s t hf)
        have hclosed : allClosed t :=
          (allClosed_iff_not_hasOpen t).2 fun ho => hst (hok.2.1 ho)
        exact intervalsOk_start_one now t hclosed

theorem GInv_complete (s : AppState) (now : ℚ) (h : GInv s) :
    GInv (s.complete_task now) := by
  cases hf : s.get_focused with
  | none =>
    have hid : s.complete_task now = s := by
      unfold AppState.complete_task
      rw [hf]
    rw [hid]
    exact h
  | some t =>
    have hok := h.1 t (get_focused_mem s t hf)
    have hred : (s.complete_task now).tasks = s.tasks.eraseIdx s.focused.toNat
        ∧ (s.complete_task now).last_completed
            = some (complete_one now t, s.focused.toNat) := by
      unfold AppState.complete_task
      rw [hf]
      exact ⟨rfl, rfl⟩
    constructor
    · intro u hu
      rw [hred.1] at hu
      exact h.1 u (List.eraseIdx_subset _ _ hu)
    · intro p hp
      rw [hred.2] at hp
      simp only [Option.mem_def, Option.some_inj] at hp
      subst hp
      exact ⟨intervalsOk_complete_one now t hok.1, rfl⟩

theorem GInv_undo (s : AppState) (now : ℚ) (h : GInv s) :
    GInv (s.undo_complete now) := by
  cases hlc : s.last_completed with
  | none =>
    have hid : s.undo_complete now = s := by
      unfold AppState.undo_complete
      rw [hlc]
    rw [hid]
    exact h
  | some p =>
    obtain ⟨t, idx⟩ := p
    obtain ⟨hok, hcomp⟩ := h.2 (t, idx) (by rw [hlc]; rfl)
    cases hrm : remove_last_from_history t.id s.history with
    | mk b hist' =>
      cases b with
      | false =>
        have hid : s.undo_complete now = s := by
          unfold AppState.undo_complete
          rw [hlc]
          dsimp only
          rw [hrm]
        rw [hid]
        exact h
      | true =>
        have hred : (s.undo_complete now).tasks
              = s.tasks.insertIdx (min idx s.tasks.length)
                (Task.start_interval now
                  { t with state := TaskState.ongoing, completed_at := none })
            ∧ (s.undo_complete now).last_completed = none := by
          unfold AppState.undo_complete
          rw [hlc]
          dsimp only
          rw [hrm]
          exact ⟨rfl, rfl⟩
        have hclosed : allClosed
            { t with state := TaskState.ongoing, completed_at := none } := by
          intro iv hiv
          refine (allClosed_iff_not_hasOpen t).2 ?_ iv hiv
          intro ho
          have hcontra := hok.2.1 ho
          rw [hcomp] at hcontra
          cases hcontra
        have hshape := start_interval_shape now
          { t with state := TaskState.ongoing, completed_at := none } hclosed
        constructor
        · intro u hu
          rw [hred.1] at hu
          rcases (List.mem_insertIdx (Nat.min_le_right idx s.tasks.length)).1 hu
            with rfl | hu
          · exact ⟨hshape.1, ⟨fun _ => rfl, fun _ => hshape.2⟩⟩
          · exact h.1 u hu
        · intro p hp
          rw [hred.2] at hp
          cases hp

theorem GInv_sleep (s : AppState) (now : ℚ) (h : GInv s) :
    GInv (s.on_sleep now) := by
  refine ⟨?_, h.2⟩
  intro u hu
  have hu' : u ∈ s.tasks.map (sleep_one now) := hu
  rcases List.mem_map.1 hu' with ⟨v, hv, rfl⟩
  exact intervalsOk_sleep_one now v (h.1 v hv)

theorem GInv_wake (s : AppState) (now : ℚ) (h : GInv s) :
    GInv (s.on_wake now) := by
  refine ⟨?_, h.2⟩
  intro u hu
  have hu' : u ∈ s.tasks.map (wake_one s.auto_paused now) := hu
  rcases List.mem_map.1 hu' with ⟨v, hv, rfl⟩
  exact intervalsOk_wake_one s.auto_paused now v (h.1 v hv)

theorem GInv_create (s : AppState) (fid : String) (now : ℚ) (nm : String)
    (mins amb : Int) (par : String) (h : GInv s) :
    GInv (s.on_task_submitted fid now nm mins amb par) := by
  refine ⟨?_, h.2⟩
  intro u hu
  unfold AppState.on_task_submitted at hu
  dsimp only at hu
  have hnew := intervalsOk_new_task fid now nm mins amb par
  split_ifs at hu with hpar
  · cases hfi : s.tasks.findIdx? (fun t => t.id = par) with
    | none =>
      rw [hfi] at hu
      dsimp only at hu
      rcases List.mem_append.1 hu with hu | hu
      · exact h.1 u hu
      · rw [List.mem_singleton] at hu
        subst hu
        exact hnew
    | some pi =>
      rw [hfi] at hu
      dsimp only at hu
      by_cases hk : pi + 1 +
          ((s.tasks.drop (pi + 1)).takeWhile
            (fun t => t.parent_task_id = some par)).length ≤ s.tasks.length
      · rcases (List.mem_insertIdx hk).1 hu with rfl | hu
        · exact hnew
        · exact h.1 u hu
      · rw [List.insertIdx_of_length_lt _ _ _ (by omega)] at hu
        exact h.1 u hu
  · rcases List.mem_append.1 hu with hu | hu
    · exact h.1 u hu
    · rw [List.mem_singleton] at hu
      subst hu
      exact hnew

/-- C6: every controller operation — create, start/resume and pause (via
the toggle), complete, undo, sleep and wake — preserves the invariant
that only the last work interval of a task can be open and an open
interval exists iff the task is Ongoing (for the stashed last-completed
task: closed intervals and Completed state); this strengthened invariant
implies the spec's wording: at most one open interval, open iff Ongoing. -/
theorem controller_ops_preserve_interval_invariant :
    (∀ (s : AppState) (fid : String) (now : ℚ) (nm : String)
        (mins amb : Int) (par : String),
        GInv s → GInv (s.on_task_submitted fid now nm mins amb par))
    ∧ (∀ (s : AppState) (now : ℚ), GInv s → GInv (s.toggle_start_pause now))
    ∧ (∀ (s : AppState) (now : ℚ), GInv s → GInv (s.pause_task now))
    ∧ (∀ (s : AppState) (now : ℚ), GInv s → GInv (s.complete_task now))
    ∧ (∀ (s : AppState) (now : ℚ), GInv s → GInv (s.undo_complete now))
    ∧ (∀ (s : AppState) (now : ℚ), GInv s → GInv (s.on_sleep now))
    ∧ (∀ (s : AppState) (now : ℚ), GInv s → GInv (s.on_wake now))
    ∧ (∀ s : AppState, GInv s → ∀ t ∈ s.tasks, claimInv t) :=
  ⟨fun s fid now nm mins amb par h => GInv_create s fid now nm mins amb par h,
    fun s now h => GInv_toggle s now h,
    fun s now h => GInv_pause s now h,
    fun s now h => GInv_complete s now h,
    fun s now h => GInv_undo s now h,
    fun s now h => GInv_sleep s now h,
    fun s now h => GInv_wake s now h,
    fun _s h t ht => intervalsOk_implies_claimInv t (h.1 t ht)⟩

/-- C8: on sleep every Ongoing task is paused with its interval closed
and alarm level reset and is remembered in the auto-paused set, the
active-alarm set is cleared, and non-Ongoing tasks are untouched; on
wake exactly the remembered tasks that are still Paused become Ongoing
with a fresh open interval, every other task (in particular one paused
manually before sleep) is untouched, and the remembered set is cleared. -/
theorem sleep_pauses_all_wake_resumes_remembered (s : AppState) (now : ℚ) :
    (s.on_sleep now).active_alarms = ∅
    ∧ (s.on_sleep now).tasks = s.tasks.map (sleep_one now)
    ∧ (∀ t ∈ s.tasks, t.state = TaskState.ongoing →
        (sleep_one now t).state = TaskState.paused
        ∧ (sleep_one now t).last_alarm_level = 0
        ∧ (dropLastClosed t → allClosed (sleep_one now t))
        ∧ t.id ∈ (s.on_sleep now).auto_paused)
    ∧ (∀ t ∈ s.tasks, t.state ≠ TaskState.ongoing → sleep_one now t = t)
    ∧ (∀ i : String, i ∈ (s.on_sleep now).auto_paused ↔
        ∃ u ∈ s.tasks, u.id = i ∧ u.state = TaskState.ongoing)
    ∧ (s.on_wake now).tasks = s.tasks.map (wake_one s.auto_paused now)
    ∧ (∀ t ∈ s.tasks,
        (t.id ∈ s.auto_paused ∧ t.state = TaskState.paused →
          wake_one s.auto_paused now t
            = Task.start_interval now { t with state := TaskState.ongoing })
        ∧ (¬ (t.id ∈ s.auto_paused ∧ t.state = TaskState.paused) →
          wake_one s.auto_paused now t = t))
    ∧ (s.on_wake now).auto_paused = ∅ := by
  have hmem : ∀ i : String, i ∈ (s.on_sleep now).auto_paused ↔
      ∃ u ∈ s.tasks, u.id = i ∧ u.state = TaskState.ongoing := by
    intro i
    show i ∈ ((s.tasks.filter
        (fun t => t.state = TaskState.ongoing)).map Task.id).toFinset ↔ _
    rw [List.mem_toFinset, List.mem_map]
    constructor
    · rintro ⟨u, hu, rfl⟩
      have := List.mem_filter.1 hu
      exact ⟨u, this.1, rfl, by simpa using this.2⟩
    · rintro ⟨u, hu, rfl, hst⟩
      exact ⟨u, List.mem_filter.2 ⟨hu, by simpa using hst⟩, rfl⟩
  refine ⟨rfl, rfl, ?_, ?_, hmem, rfl, ?_, rfl⟩
  · intro t _ht hst
    obtain ⟨hw, hstate, hlevel⟩ := sleep_one_ongoing now t hst
    refine ⟨hstate, hlevel, ?_, ?_⟩
    · intro hd iv hiv
      rw [hw] at hiv
      exact closeLast_closes now _ hd iv hiv
    · exact (hmem t.id).2 ⟨t, _ht, rfl, hst⟩
  · intro t _ht hst
    exact sleep_one_other now t hst
  · intro t _ht
    exact ⟨fun hc => wake_one_auto s.auto_paused now t hc,
      fun hc => wake_one_other s.auto_paused now t hc⟩

/-- `undo_complete` with nothing stashed changes nothing. -/
theorem undo_complete_of_stash_none (s : AppState) (now : ℚ)
    (h : s.last_completed = none) : s.undo_complete now = s := by
  unfold AppState.undo_complete
  rw [h]

/-- C2: undo applies only to the stashed most recently completed task
(which `complete_task` fills) and only when the history-tail removal
succeeds, in which case the task is reopened Ongoing with `completedAt`
cleared and a new open interval, reinserted at min(original index,
set size), focused, the stash cleared and the history rewritten; if the
removal fails, or nothing is stashed — in particular right after a
successful undo — the state is unchanged, so a second undo with no
intervening completion fails and leaves the active set unchanged. -/
theorem undo_restores_only_last_completed (s : AppState) (now now2 : ℚ) :
    (s.last_completed = none → s.undo_complete now = s)
    ∧ (∀ (t : Task) (idx : ℕ), s.last_completed = some (t, idx) →
        ((remove_last_from_history t.id s.history).1 = false →
          s.undo_complete now = s)
        ∧ (∀ hist' : Option (List HLine),
            remove_last_from_history t.id s.history = (true, hist') →
            s.undo_complete now =
              { s with
                tasks := s.tasks.insertIdx (min idx s.tasks.length)
                  (Task.start_interval now
                    { t with state := TaskState.ongoing, completed_at := none })
                focused := ((min idx s.tasks.length : ℕ) : Int)
                history := hist'
                last_completed := none }
            ∧ (s.undo_complete now).undo_complete now2 = s.undo_complete now))
    ∧ (∀ t : Task, s.get_focused = some t →
        (s.complete_task now).last_completed
          = some (complete_one now t, s.focused.toNat))
    ∧ (∀ t : Task,
        (Task.start_interval now
          { t with state := TaskState.ongoing, completed_at := none }).state
            = TaskState.ongoing
        ∧ (Task.start_interval now
            { t with state := TaskState.ongoing, completed_at := none }).completed_at
            = none
        ∧ (Task.start_interval now
            { t with state := TaskState.ongoing, completed_at := none
            }).work_intervals.getLast? = some ⟨now, none⟩) := by
  refine ⟨undo_complete_of_stash_none s now, ?_, ?_, ?_⟩
  · intro t idx hlc
    constructor
    · intro hfail
      cases hrm : remove_last_from_history t.id s.history with
      | mk b hist1 =>
        rw [hrm] at hfail
        dsimp only at hfail
        subst hfail
        unfold AppState.undo_complete
        rw [hlc]
        dsimp only
        rw [hrm]
    · intro hist' hrm
      have hred : s.undo_complete now =
          { s with
            tasks := s.tasks.insertIdx (min idx s.tasks.length)
              (Task.start_interval now
                { t with state := TaskState.ongoing, completed_at := none })
            focused := ((min idx s.tasks.length : ℕ) : Int)
            history := hist'
            last_completed := none } := by
        unfold AppState.undo_complete
        rw [hlc]
        dsimp only
        rw [hrm]
      refine ⟨hred, ?_⟩
      rw [undo_complete_of_stash_none (s.undo_complete now) now2 (by rw [hred])]
  · intro t hf
    unfold AppState.complete_task
    rw [hf]
  · intro t
    exact ⟨rfl, rfl, List.getLast?_concat _⟩

end Etime
